/-
Verification of nightshift core components against their specification.

Shallow embedding notes:
* Go `float64` arithmetic is modelled exactly over `ℚ` (rationals); `int64`
  conversion is modelled as truncation toward zero (`goTrunc`), `math.Round`
  as rounding half away from zero (`goRound`), and `math.Max` as `max`.
  Integer overflow of `int64` is out of scope (values are unbounded).
* Go `time.Time` is modelled as a civil-calendar instant: a day number
  (days since the Unix epoch) plus seconds-of-day, in a fixed location
  with no daylight-saving jumps.
-/
import Mathlib

namespace Nightshift

/-! ## Go numeric conversions -/

/-- Go's `int64(x)` conversion of a `float64`: truncation toward zero. -/
def goTrunc (q : ℚ) : ℤ :=
  if 0 ≤ q then ⌊q⌋ else ⌈q⌉

/-- Go's `math.Round`: round half away from zero. -/
def goRound (q : ℚ) : ℤ :=
  if 0 ≤ q then ⌊q + 1/2⌋ else ⌈q - 1/2⌉

theorem goTrunc_nonneg {q : ℚ} (h : 0 ≤ q) : 0 ≤ goTrunc q := by
  simp only [goTrunc, if_pos h]
  exact Int.floor_nonneg.mpr h

theorem goTrunc_le_of_le_intCast {q : ℚ} {n : ℤ} (h0 : 0 ≤ q) (h : q ≤ (n : ℚ)) :
    goTrunc q ≤ n := by
  simp only [goTrunc, if_pos h0]
  calc ⌊q⌋ ≤ ⌊(n : ℚ)⌋ := Int.floor_mono h
    _ = n := Int.floor_intCast n

theorem goTrunc_le_goTrunc {p q : ℚ} (h0 : 0 ≤ p) (h : p ≤ q) :
    goTrunc p ≤ goTrunc q := by
  have h0q : 0 ≤ q := le_trans h0 h
  simp only [goTrunc, if_pos h0, if_pos h0q]
  exact Int.floor_mono h

theorem goTrunc_le_self {q : ℚ} (h0 : 0 ≤ q) : (goTrunc q : ℚ) ≤ q := by
  simp only [goTrunc, if_pos h0]
  exact Int.floor_le q

/-! ## Budget engine (internal/budget/budget.go)

The relevant fields of `AllowanceResult`, and the three functions the spec's
budget property is about: `calculateDailyAllowance`, `calculateWeeklyAllowance`
and `applyReserve`.  `usedPercent` and the multiplier are `float64` in Go,
modelled as `ℚ`; the integer fields are `int64`/`int`, modelled as `ℤ`. -/

structure AllowanceResult where
  allowance : ℤ
  budgetBase : ℤ
  usedPercent : ℚ
  reserveAmount : ℤ
  mode : String
  remainingDays : ℤ
  multiplier : ℚ
  deriving Repr, DecidableEq

/-- `calculateDailyAllowance` from budget.go:
`dailyBudget := weeklyBudget / 7` (Go integer division),
`availableToday := float64(dailyBudget) * (1 - usedPercent/100)`,
`nightshiftAllowance := availableToday * float64(maxPercent) / 100`,
capped at `availableToday`, then `int64(math.Max(0, nightshiftAllowance))`. -/
def calculateDailyAllowance (weeklyBudget : ℤ) (usedPercent : ℚ) (maxPercent : ℤ) :
    AllowanceResult :=
  let dailyBudget : ℤ := Int.tdiv weeklyBudget 7
  let availableToday : ℚ := (dailyBudget : ℚ) * (1 - usedPercent / 100)
  let raw : ℚ := availableToday * (maxPercent : ℚ) / 100
  let nightshiftAllowance : ℚ := if raw > availableToday then availableToday else raw
  { allowance := goTrunc (max 0 nightshiftAllowance)
    budgetBase := dailyBudget
    usedPercent := usedPercent
    reserveAmount := 0
    mode := "daily"
    remainingDays := 0
    multiplier := 1 }

/-- `calculateWeeklyAllowance` from budget.go:
days clamped to at least 1, `remainingWeekly := weeklyBudget * (1 - used/100)`,
multiplier `3 - remainingDays` when aggressive and `remainingDays ≤ 2`, else 1,
`allowance := int64(max 0 ((remaining/days) * maxPercent/100 * multiplier))`,
`budgetBase := int64(remainingWeekly)`. -/
def calculateWeeklyAllowance (aggressiveEndOfWeek : Bool) (weeklyBudget : ℤ)
    (usedPercent : ℚ) (maxPercent : ℤ) (remainingDays : ℤ) : AllowanceResult :=
  let days : ℤ := if remainingDays ≤ 0 then 1 else remainingDays
  let remainingWeekly : ℚ := (weeklyBudget : ℚ) * (1 - usedPercent / 100)
  let multiplier : ℚ :=
    if aggressiveEndOfWeek ∧ days ≤ 2 then ((3 - days : ℤ) : ℚ) else 1
  let raw : ℚ := remainingWeekly / (days : ℚ) * (maxPercent : ℚ) / 100 * multiplier
  { allowance := goTrunc (max 0 raw)
    budgetBase := goTrunc remainingWeekly
    usedPercent := usedPercent
    reserveAmount := 0
    mode := "weekly"
    remainingDays := days
    multiplier := multiplier }

/-- `applyReserve` from budget.go:
`reserveAmount := float64(budgetBase) * reservePercent / 100`,
`allowance := int64(math.Max(0, float64(allowance) - reserveAmount))`. -/
def applyReserve (result : AllowanceResult) (reservePercent : ℤ) : AllowanceResult :=
  let reserveAmount : ℚ := (result.budgetBase : ℚ) * (reservePercent : ℚ) / 100
  { result with
    reserveAmount := goTrunc reserveAmount
    allowance := goTrunc (max 0 ((result.allowance : ℚ) - reserveAmount)) }

/-! Helper lemmas for the budget bounds. -/

theorem applyReserve_allowance_nonneg (result : AllowanceResult) (reservePercent : ℤ) :
    0 ≤ (applyReserve result reservePercent).allowance :=
  goTrunc_nonneg (le_max_left 0 _)

theorem applyReserve_allowance_le (result : AllowanceResult) {reservePercent : ℤ}
    (hr : 0 ≤ reservePercent) (hb : 0 ≤ result.budgetBase) (ha : 0 ≤ result.allowance) :
    (applyReserve result reservePercent).allowance ≤ result.allowance := by
  have hra : (0 : ℚ) ≤ (result.budgetBase : ℚ) * (reservePercent : ℚ) / 100 := by
    apply div_nonneg _ (by norm_num)
    exact mul_nonneg (by exact_mod_cast hb) (by exact_mod_cast hr)
  apply goTrunc_le_of_le_intCast (le_max_left 0 _)
  apply max_le (by exact_mod_cast ha)
  have : ((result.allowance : ℚ) - (result.budgetBase : ℚ) * (reservePercent : ℚ) / 100)
      ≤ (result.allowance : ℚ) := by linarith
  exact this

theorem calculateDailyAllowance_base_nonneg {weeklyBudget : ℤ} (h : 0 ≤ weeklyBudget)
    (usedPercent : ℚ) (maxPercent : ℤ) :
    0 ≤ (calculateDailyAllowance weeklyBudget usedPercent maxPercent).budgetBase := by
  simp only [calculateDailyAllowance]
  exact Int.tdiv_nonneg h (by norm_num)

theorem calculateDailyAllowance_allowance_le_base {weeklyBudget : ℤ}
    (hw : 0 ≤ weeklyBudget) {usedPercent : ℚ} (hu0 : 0 ≤ usedPercent)
    (hu1 : usedPercent ≤ 100) (maxPercent : ℤ) :
    (calculateDailyAllowance weeklyBudget usedPercent maxPercent).allowance
      ≤ (calculateDailyAllowance weeklyBudget usedPercent maxPercent).budgetBase := by
  simp only [calculateDailyAllowance]
  have hdb : (0 : ℤ) ≤ Int.tdiv weeklyBudget 7 := Int.tdiv_nonneg hw (by norm_num)
  have hdbq : (0 : ℚ) ≤ (Int.tdiv weeklyBudget 7 : ℤ) := by exact_mod_cast hdb
  have hfrac0 : (0 : ℚ) ≤ 1 - usedPercent / 100 := by linarith
  have hfrac1 : 1 - usedPercent / 100 ≤ 1 := by
    have : (0 : ℚ) ≤ usedPercent / 100 := by positivity
    linarith
  have havail0 : (0 : ℚ) ≤ ((Int.tdiv weeklyBudget 7 : ℤ) : ℚ) * (1 - usedPercent / 100) :=
    mul_nonneg hdbq hfrac0
  have havail1 : ((Int.tdiv weeklyBudget 7 : ℤ) : ℚ) * (1 - usedPercent / 100)
      ≤ ((Int.tdiv weeklyBudget 7 : ℤ) : ℚ) := by
    calc ((Int.tdiv weeklyBudget 7 : ℤ) : ℚ) * (1 - usedPercent / 100)
        ≤ ((Int.tdiv weeklyBudget 7 : ℤ) : ℚ) * 1 := by
          exact mul_le_mul_of_nonneg_left hfrac1 hdbq
      _ = ((Int.tdiv weeklyBudget 7 : ℤ) : ℚ) := mul_one _
  apply goTrunc_le_of_le_intCast (le_max_left 0 _)
  apply max_le hdbq
  split
  · exact havail1
  · next hcap => exact le_trans (not_lt.mp hcap) havail1

theorem calculateWeeklyAllowance_multiplier_ge_one (aggressiveEndOfWeek : Bool)
    (weeklyBudget : ℤ) (usedPercent : ℚ) (maxPercent remainingDays : ℤ) :
    1 ≤ (calculateWeeklyAllowance aggressiveEndOfWeek weeklyBudget usedPercent
          maxPercent remainingDays).multiplier := by
  simp only [calculateWeeklyAllowance]
  set d : ℤ := if remainingDays ≤ 0 then 1 else remainingDays with hd_def
  have hd1 : (1 : ℤ) ≤ d := by rw [hd_def]; split <;> omega
  split
  · next hbr =>
    have h2 : d ≤ 2 := hbr.2
    have h3 : (1 : ℤ) ≤ 3 - d := by omega
    exact_mod_cast h3
  · exact le_refl (1 : ℚ)

theorem calculateWeeklyAllowance_bounds (aggressiveEndOfWeek : Bool)
    {weeklyBudget : ℤ} (hw : 0 ≤ weeklyBudget) {usedPercent : ℚ}
    (hu0 : 0 ≤ usedPercent) (hu1 : usedPercent ≤ 100) {maxPercent : ℤ}
    (hmp : maxPercent ≤ 100) (remainingDays : ℤ) :
    0 ≤ (calculateWeeklyAllowance aggressiveEndOfWeek weeklyBudget usedPercent
          maxPercent remainingDays).allowance ∧
    0 ≤ (calculateWeeklyAllowance aggressiveEndOfWeek weeklyBudget usedPercent
          maxPercent remainingDays).budgetBase ∧
    ((calculateWeeklyAllowance aggressiveEndOfWeek weeklyBudget usedPercent
          maxPercent remainingDays).multiplier = 1 →
      (calculateWeeklyAllowance aggressiveEndOfWeek weeklyBudget usedPercent
          maxPercent remainingDays).allowance
        ≤ (calculateWeeklyAllowance aggressiveEndOfWeek weeklyBudget usedPercent
            maxPercent remainingDays).budgetBase) ∧
    ((calculateWeeklyAllowance aggressiveEndOfWeek weeklyBudget usedPercent
          maxPercent remainingDays).allowance : ℚ)
      ≤ (calculateWeeklyAllowance aggressiveEndOfWeek weeklyBudget usedPercent
          maxPercent remainingDays).multiplier
        * ((weeklyBudget : ℚ) * (1 - usedPercent / 100)) := by
  have hM := calculateWeeklyAllowance_multiplier_ge_one aggressiveEndOfWeek
    weeklyBudget usedPercent maxPercent remainingDays
  simp only [calculateWeeklyAllowance] at hM ⊢
  set d : ℤ := if remainingDays ≤ 0 then 1 else remainingDays with hd_def
  have hd1 : (1 : ℤ) ≤ d := by rw [hd_def]; split <;> omega
  have hdq : (1 : ℚ) ≤ (d : ℚ) := by exact_mod_cast hd1
  set M : ℚ := if aggressiveEndOfWeek = true ∧ d ≤ 2 then ((3 - d : ℤ) : ℚ) else 1
    with hM_def
  have hM0 : (0 : ℚ) ≤ M := le_trans zero_le_one hM
  set rw : ℚ := (weeklyBudget : ℚ) * (1 - usedPercent / 100) with hrw_def
  have hrw0 : (0 : ℚ) ≤ rw := by
    apply mul_nonneg (by exact_mod_cast hw)
    linarith
  set raw : ℚ := rw / (d : ℚ) * (maxPercent : ℚ) / 100 * M with hraw_def
  have hdiv : rw / (d : ℚ) ≤ rw := div_le_self hrw0 hdq
  have hdiv0 : (0 : ℚ) ≤ rw / (d : ℚ) := by positivity
  have hcore : rw / (d : ℚ) * (maxPercent : ℚ) / 100 ≤ rw := by
    rcases le_or_lt (maxPercent : ℚ) 0 with hmp0 | hmp0
    · have : rw / (d : ℚ) * (maxPercent : ℚ) / 100 ≤ 0 := by
        apply div_nonpos_of_nonpos_of_nonneg _ (by norm_num)
        exact mul_nonpos_of_nonneg_of_nonpos hdiv0 hmp0
      linarith
    · have hmq : (maxPercent : ℚ) / 100 ≤ 1 := by
        rw [div_le_one (by norm_num)]
        exact_mod_cast hmp
      calc rw / (d : ℚ) * (maxPercent : ℚ) / 100
          = rw / (d : ℚ) * ((maxPercent : ℚ) / 100) := by ring
        _ ≤ rw * 1 := by
            apply mul_le_mul hdiv hmq (by positivity) hrw0
        _ = rw := mul_one rw
  have hraw_le : raw ≤ M * rw := by
    rw [hraw_def]
    calc rw / (d : ℚ) * (maxPercent : ℚ) / 100 * M
        ≤ rw * M := mul_le_mul_of_nonneg_right hcore hM0
      _ = M * rw := mul_comm rw M
  refine ⟨goTrunc_nonneg (le_max_left 0 _), goTrunc_nonneg hrw0, ?_, ?_⟩
  · intro hM1
    apply goTrunc_le_goTrunc (le_max_left 0 _)
    apply max_le hrw0
    calc raw ≤ M * rw := hraw_le
      _ = rw := by rw [hM1, one_mul]
  · calc ((goTrunc (max 0 raw) : ℤ) : ℚ) ≤ max 0 raw :=
          goTrunc_le_self (le_max_left 0 _)
      _ ≤ M * rw := max_le (mul_nonneg hM0 hrw0) hraw_le

/-- C1 (amended).  For configurations with `max_percent ≤ 100`, a positive weekly
budget, `used% ∈ [0,100]` and a nonnegative reserve percentage, the allowance
after the reserve subtraction satisfies: `allowance ≥ 0` in both modes;
`allowance ≤ base` in daily mode; and in weekly mode `allowance ≤ base` whenever
the end-of-week multiplier is 1, with the general bound
`allowance ≤ multiplier · (weekly · (1 − used/100))` (the remaining weekly
budget before integer truncation) otherwise. -/
theorem allowance_bounds (aggressiveEndOfWeek : Bool) (weeklyBudget : ℤ)
    (usedPercent : ℚ) (maxPercent reservePercent remainingDays : ℤ)
    (hw : 0 < weeklyBudget) (hu0 : 0 ≤ usedPercent) (hu1 : usedPercent ≤ 100)
    (hmp : maxPercent ≤ 100) (hrp : 0 ≤ reservePercent) :
    (0 ≤ (applyReserve (calculateDailyAllowance weeklyBudget usedPercent maxPercent)
            reservePercent).allowance ∧
      (applyReserve (calculateDailyAllowance weeklyBudget usedPercent maxPercent)
            reservePercent).allowance
        ≤ (applyReserve (calculateDailyAllowance weeklyBudget usedPercent maxPercent)
            reservePercent).budgetBase) ∧
    (0 ≤ (applyReserve (calculateWeeklyAllowance aggressiveEndOfWeek weeklyBudget
            usedPercent maxPercent remainingDays) reservePercent).allowance ∧
      ((applyReserve (calculateWeeklyAllowance aggressiveEndOfWeek weeklyBudget
            usedPercent maxPercent remainingDays) reservePercent).multiplier = 1 →
        (applyReserve (calculateWeeklyAllowance aggressiveEndOfWeek weeklyBudget
            usedPercent maxPercent remainingDays) reservePercent).allowance
          ≤ (applyReserve (calculateWeeklyAllowance aggressiveEndOfWeek weeklyBudget
              usedPercent maxPercent remainingDays) reservePercent).budgetBase) ∧
      ((applyReserve (calculateWeeklyAllowance aggressiveEndOfWeek weeklyBudget
            usedPercent maxPercent remainingDays) reservePercent).allowance : ℚ)
        ≤ (applyReserve (calculateWeeklyAllowance aggressiveEndOfWeek weeklyBudget
            usedPercent maxPercent remainingDays) reservePercent).multiplier
          * ((weeklyBudget : ℚ) * (1 - usedPercent / 100))) := by
  have hw' : (0 : ℤ) ≤ weeklyBudget := le_of_lt hw
  obtain ⟨hwa0, hwb0, hwle, hwq⟩ :=
    calculateWeeklyAllowance_bounds aggressiveEndOfWeek hw' hu0 hu1 hmp remainingDays
  have hda0 : 0 ≤ (calculateDailyAllowance weeklyBudget usedPercent maxPercent).allowance := by
    simp only [calculateDailyAllowance]
    exact goTrunc_nonneg (le_max_left 0 _)
  have hdb0 := calculateDailyAllowance_base_nonneg hw' usedPercent maxPercent
  have hdle := calculateDailyAllowance_allowance_le_base hw' hu0 hu1 maxPercent
  refine ⟨⟨applyReserve_allowance_nonneg _ _, ?_⟩,
          applyReserve_allowance_nonneg _ _, ?_, ?_⟩
  · calc (applyReserve (calculateDailyAllowance weeklyBudget usedPercent maxPercent)
          reservePercent).allowance
        ≤ (calculateDailyAllowance weeklyBudget usedPercent maxPercent).allowance :=
          applyReserve_allowance_le _ hrp hdb0 hda0
      _ ≤ (calculateDailyAllowance weeklyBudget usedPercent maxPercent).budgetBase := hdle
      _ = (applyReserve (calculateDailyAllowance weeklyBudget usedPercent maxPercent)
            reservePercent).budgetBase := rfl
  · intro hm1
    have hm1' : (calculateWeeklyAllowance aggressiveEndOfWeek weeklyBudget usedPercent
        maxPercent remainingDays).multiplier = 1 := hm1
    calc (applyReserve (calculateWeeklyAllowance aggressiveEndOfWeek weeklyBudget
            usedPercent maxPercent remainingDays) reservePercent).allowance
        ≤ (calculateWeeklyAllowance aggressiveEndOfWeek weeklyBudget usedPercent
            maxPercent remainingDays).allowance :=
          applyReserve_allowance_le _ hrp hwb0 hwa0
      _ ≤ (calculateWeeklyAllowance aggressiveEndOfWeek weeklyBudget usedPercent
            maxPercent remainingDays).budgetBase := hwle hm1'
      _ = (applyReserve (calculateWeeklyAllowance aggressiveEndOfWeek weeklyBudget
            usedPercent maxPercent remainingDays) reservePercent).budgetBase := rfl
  · have hstep : (applyReserve (calculateWeeklyAllowance aggressiveEndOfWeek weeklyBudget
          usedPercent maxPercent remainingDays) reservePercent).allowance
        ≤ (calculateWeeklyAllowance aggressiveEndOfWeek weeklyBudget usedPercent
            maxPercent remainingDays).allowance :=
      applyReserve_allowance_le _ hrp hwb0 hwa0
    have hstep' : ((applyReserve (calculateWeeklyAllowance aggressiveEndOfWeek weeklyBudget
          usedPercent maxPercent remainingDays) reservePercent).allowance : ℚ)
        ≤ ((calculateWeeklyAllowance aggressiveEndOfWeek weeklyBudget usedPercent
            maxPercent remainingDays).allowance : ℚ) := by exact_mod_cast hstep
    exact le_trans hstep' hwq

/-- C1 witness: the amended bounds hold at weekly budget 700000, 0% used,
`max_percent = 75`, `reserve_percent = 10`, 3 days remaining. -/
theorem allowance_bounds_witness :
    (0 < (700000 : ℤ) ∧ (0 : ℚ) ≤ 0 ∧ (0 : ℚ) ≤ 100 ∧ (75 : ℤ) ≤ 100 ∧ (0 : ℤ) ≤ 10) ∧
    ((0 ≤ (applyReserve (calculateDailyAllowance 700000 0 75) 10).allowance ∧
      (applyReserve (calculateDailyAllowance 700000 0 75) 10).allowance
        ≤ (applyReserve (calculateDailyAllowance 700000 0 75) 10).budgetBase) ∧
    (0 ≤ (applyReserve (calculateWeeklyAllowance false 700000 0 75 3) 10).allowance ∧
      ((applyReserve (calculateWeeklyAllowance false 700000 0 75 3) 10).multiplier = 1 →
        (applyReserve (calculateWeeklyAllowance false 700000 0 75 3) 10).allowance
          ≤ (applyReserve (calculateWeeklyAllowance false 700000 0 75 3) 10).budgetBase) ∧
      ((applyReserve (calculateWeeklyAllowance false 700000 0 75 3) 10).allowance : ℚ)
        ≤ (applyReserve (calculateWeeklyAllowance false 700000 0 75 3) 10).multiplier
          * ((700000 : ℚ) * (1 - 0 / 100)))) :=
  ⟨⟨by norm_num, by norm_num, by norm_num, by norm_num, by norm_num⟩,
    allowance_bounds false 700000 0 75 10 3 (by norm_num) (by norm_num) (by norm_num)
      (by norm_num) (by norm_num)⟩

/-- C1 counterexample to the claim as stated: with `max_percent = 100 ≤ 100`,
`used% = 0 ∈ [0,100]`, weekly mode, `aggressive_end_of_week` enabled and one day
remaining, the computed allowance is 1400000 while the base (remaining weekly
budget) is 700000, so `allowance ≤ base` fails. -/
theorem allowance_exceeds_base_counterexample :
    (applyReserve (calculateWeeklyAllowance true 700000 0 100 1) 0).allowance = 1400000 ∧
    (applyReserve (calculateWeeklyAllowance true 700000 0 100 1) 0).budgetBase = 700000 ∧
    ¬ ((applyReserve (calculateWeeklyAllowance true 700000 0 100 1) 0).allowance
        ≤ (applyReserve (calculateWeeklyAllowance true 700000 0 100 1) 0).budgetBase) := by
  refine ⟨?_, ?_, ?_⟩ <;>
    norm_num [applyReserve, calculateWeeklyAllowance, goTrunc]

/-- C2: in weekly mode the end-of-week multiplier is 1 whenever
`aggressive_end_of_week` is disabled or more than 2 days remain, and equals
`3 − days` when aggressive is enabled and `days ≤ 2` (so 2 with one day left and
1 with two days left).  The hypothesis `1 ≤ remainingDays` reflects that
`DaysUntilWeeklyReset` always returns at least 1. -/
theorem weekly_multiplier_spec (aggressiveEndOfWeek : Bool) (weeklyBudget : ℤ)
    (usedPercent : ℚ) (maxPercent remainingDays : ℤ) (hd : 1 ≤ remainingDays) :
    ((aggressiveEndOfWeek = false ∨ 2 < remainingDays) →
      (calculateWeeklyAllowance aggressiveEndOfWeek weeklyBudget usedPercent
        maxPercent remainingDays).multiplier = 1) ∧
    (aggressiveEndOfWeek = true → remainingDays ≤ 2 →
      (calculateWeeklyAllowance aggressiveEndOfWeek weeklyBudget usedPercent
        maxPercent remainingDays).multiplier = ((3 - remainingDays : ℤ) : ℚ)) := by
  have hclamp : (if remainingDays ≤ 0 then 1 else remainingDays) = remainingDays := by
    split <;> omega
  constructor
  · rintro (hagg | hdays) <;>
      simp only [calculateWeeklyAllowance, hclamp] <;> rw [if_neg]
    · rintro ⟨h1, _⟩; rw [hagg] at h1; exact Bool.false_ne_true h1
    · rintro ⟨_, h2⟩; omega
  · intro hagg hdays
    simp only [calculateWeeklyAllowance, hclamp]
    rw [if_pos ⟨hagg, hdays⟩]

/-- C2 witness: with aggressive enabled the multiplier is 2 with one day left
and 1 with two days left; with aggressive disabled it is 1 at three days. -/
theorem weekly_multiplier_spec_witness :
    ((1 : ℤ) ≤ 1 ∧
      (calculateWeeklyAllowance true 700000 0 80 1).multiplier = ((3 - 1 : ℤ) : ℚ)) ∧
    (calculateWeeklyAllowance true 700000 0 80 2).multiplier = ((3 - 2 : ℤ) : ℚ) ∧
    (calculateWeeklyAllowance false 700000 0 80 3).multiplier = 1 :=
  ⟨⟨le_refl 1,
    (weekly_multiplier_spec true 700000 0 80 1 (by norm_num)).2 rfl (by norm_num)⟩,
    (weekly_multiplier_spec true 700000 0 80 2 (by norm_num)).2 rfl (by norm_num),
    (weekly_multiplier_spec false 700000 0 80 3 (by norm_num)).1 (Or.inl rfl)⟩

/-! ## Civil time model

Go `time.Time` restricted to what the snapshot collector uses: a day number
(days since the Unix epoch, which fell on a Thursday) and seconds since local
midnight.  `AddDate(0, 0, n)` shifts the day number; `time.Date(y, m, d,
0, 0, 0, 0, loc)` zeroes the time of day. -/

structure GoTime where
  day : ℤ
  secs : ℤ
  deriving Repr, DecidableEq

/-- Go `time.Weekday` (Sunday = 0, …, Saturday = 6); the epoch day 0 was a
Thursday (weekday 4).  Go computes weekday from a nonnegative absolute day
count, so the Euclidean remainder matches it for every representable time. -/
def GoTime.weekday (t : GoTime) : ℤ := (t.day + 4) % 7

/-- `time.Date(now.Year(), now.Month(), now.Day(), 0, 0, 0, 0, now.Location())`. -/
def GoTime.midnight (t : GoTime) : GoTime := { day := t.day, secs := 0 }

/-- `t.AddDate(0, 0, n)`. -/
def GoTime.addDays (t : GoTime) (n : ℤ) : GoTime := { t with day := t.day + n }

/-! ## Snapshot collector (internal/snapshots/collector.go) -/

/-- The weekday clamp in `NewCollector`:
`if weekStartDay < time.Sunday || weekStartDay > time.Saturday { weekStartDay = time.Monday }`
(Sunday = 0, Saturday = 6, Monday = 1). -/
def collectorWeekStartDay (weekStartDay : ℤ) : ℤ :=
  if weekStartDay < 0 ∨ 6 < weekStartDay then 1 else weekStartDay

/-- `startOfWeek` from collector.go: clamp the weekday, zero the time of day,
`delta := (7 + int(now.Weekday()) - int(weekStartDay)) % 7` (Go `%` is
truncated mod, `Int.tmod`), then `AddDate(0, 0, -delta)`. -/
def startOfWeek (now : GoTime) (weekStartDay : ℤ) : GoTime :=
  let wsd := if weekStartDay < 0 ∨ 6 < weekStartDay then 1 else weekStartDay
  let m := now.midnight
  let delta := Int.tmod (7 + m.weekday - wsd) 7
  m.addDays (-delta)

/-- A stored usage snapshot (collector.go `Snapshot`), restricted to the fields
the claims are about; the ISO week number and year columns are omitted. -/
structure Snapshot where
  provider : String
  timestamp : GoTime
  weekStart : GoTime
  localTokens : ℤ
  localDaily : ℤ
  scrapedPct : Option ℚ
  inferredBudget : Option ℤ
  dayOfWeek : ℤ
  hourOfDay : ℤ
  deriving Repr, DecidableEq

/-- The scraped-percentage acceptance in `TakeSnapshot`:
`if pct >= 0 && pct <= 100 { scrapedPct = &pct }`; a scrape error yields
`none` (no percentage this cycle). -/
def acceptScrapedPct (scrape : Option ℚ) : Option ℚ :=
  match scrape with
  | some pct => if 0 ≤ pct ∧ pct ≤ 100 then some pct else none
  | none => none

/-- The pure core of `TakeSnapshot`: given the current time, the collector's
(already clamped) week-start weekday, the provider's local weekly and daily
token totals, and the scrape outcome, build the snapshot row that is inserted.
Mirrors collector.go lines 85–182: week start, day of week, hour of day, and
`if scrapedPct != nil && *scrapedPct > 0 { budget := int64(math.Round(float64(localWeekly) / (*scrapedPct / 100))); inferredBudget = &budget }`. -/
def takeSnapshotCore (provider : String) (now : GoTime) (weekStartDay : ℤ)
    (localWeekly localDaily : ℤ) (scrape : Option ℚ) : Snapshot :=
  let scrapedPct := acceptScrapedPct scrape
  let weekStart := startOfWeek now weekStartDay
  let inferredBudget : Option ℤ :=
    match scrapedPct with
    | some pct =>
        if 0 < pct then some (goRound ((localWeekly : ℚ) / (pct / 100))) else none
    | none => none
  { provider := provider
    timestamp := now
    weekStart := weekStart
    localTokens := localWeekly
    localDaily := localDaily
    scrapedPct := scrapedPct
    inferredBudget := inferredBudget
    dayOfWeek := now.weekday
    hourOfDay := now.secs / 3600 }

/-- C3: whenever the scraped percentage is present (hence accepted, so in
`[0,100]`) and positive and the local weekly count is positive, the stored
inferred budget is exactly `round(local_weekly / (pct/100))`. -/
theorem inferred_budget_formula (provider : String) (now : GoTime)
    (weekStartDay localWeekly localDaily : ℤ) {pct : ℚ}
    (hp0 : 0 < pct) (hp1 : pct ≤ 100) (hlw : 0 < localWeekly) :
    (takeSnapshotCore provider now weekStartDay localWeekly localDaily
        (some pct)).inferredBudget
      = some (goRound ((localWeekly : ℚ) / (pct / 100))) ∧
    (takeSnapshotCore provider now weekStartDay localWeekly localDaily
        (some pct)).scrapedPct = some pct ∧
    0 < localWeekly := by
  have hacc : acceptScrapedPct (some pct) = some pct := by
    simp only [acceptScrapedPct]
    rw [if_pos ⟨le_of_lt hp0, hp1⟩]
  refine ⟨?_, ?_, hlw⟩ <;> simp only [takeSnapshotCore, hacc] <;> rw [if_pos hp0]

/-- C3 witness: local weekly 700 tokens at 50% scraped yields inferred budget
1400 = round(700 / 0.5). -/
theorem inferred_budget_formula_witness :
    ((0 : ℚ) < 50 ∧ (50 : ℚ) ≤ 100 ∧ (0 : ℤ) < 700) ∧
    (takeSnapshotCore "claude" ⟨0, 0⟩ 1 700 120 (some 50)).inferredBudget
      = some (goRound ((700 : ℚ) / (50 / 100))) ∧
    goRound ((700 : ℚ) / (50 / 100)) = 1400 :=
  ⟨⟨by norm_num, by norm_num, by norm_num⟩,
    ((inferred_budget_formula "claude" ⟨0, 0⟩ 1 700 120 (by norm_num) (by norm_num)
        (by norm_num)).1),
    by norm_num [goRound]⟩

/-- C4 (code bug): with zero local weekly tokens and a positive scraped
percentage (42%, the situation of the repository's own test
`TestTakeSnapshotCodexSkipsInferredBudget`), the snapshot row stores the
inferred budget as the present value 0 rather than leaving the field absent. -/
theorem inferred_budget_stored_zero :
    (takeSnapshotCore "codex" ⟨0, 0⟩ 1 0 0 (some 42)).localTokens = 0 ∧
    (takeSnapshotCore "codex" ⟨0, 0⟩ 1 0 0 (some 42)).scrapedPct = some 42 ∧
    (takeSnapshotCore "codex" ⟨0, 0⟩ 1 0 0 (some 42)).inferredBudget = some 0 ∧
    (takeSnapshotCore "codex" ⟨0, 0⟩ 1 0 0 (some 42)).inferredBudget ≠ none := by
  have hib : (takeSnapshotCore "codex" ⟨0, 0⟩ 1 0 0 (some 42)).inferredBudget = some 0 := by
    norm_num [takeSnapshotCore, acceptScrapedPct, goRound]
  refine ⟨rfl, ?_, hib, ?_⟩
  · norm_num [takeSnapshotCore, acceptScrapedPct]
  · rw [hib]; exact Option.some_ne_none 0

/-- C9: for a valid configured week-start weekday (the collector's constructor
guarantees `0 ≤ wsd ≤ 6`), the stored week start has its time of day zeroed,
falls on the configured weekday, and is on or before the snapshot timestamp's
date by at most six days. -/
theorem week_start_invariant (now : GoTime) {weekStartDay : ℤ}
    (h0 : 0 ≤ weekStartDay) (h6 : weekStartDay ≤ 6) :
    (startOfWeek now weekStartDay).secs = 0 ∧
    (startOfWeek now weekStartDay).weekday = weekStartDay ∧
    (startOfWeek now weekStartDay).day ≤ now.day ∧
    now.day - (startOfWeek now weekStartDay).day ≤ 6 := by
  have hclamp : ¬ (weekStartDay < 0 ∨ 6 < weekStartDay) := by omega
  have hwd0 : 0 ≤ (now.day + 4) % 7 := Int.emod_nonneg _ (by norm_num)
  have hwd1 : (now.day + 4) % 7 < 7 := Int.emod_lt_of_pos _ (by norm_num)
  have harg : 0 ≤ 7 + (now.day + 4) % 7 - weekStartDay := by omega
  have htmod : Int.tmod (7 + (now.day + 4) % 7 - weekStartDay) 7
      = (7 + (now.day + 4) % 7 - weekStartDay) % 7 :=
    Int.tmod_eq_emod harg (by norm_num)
  refine ⟨?_, ?_, ?_, ?_⟩ <;>
    simp only [startOfWeek, GoTime.midnight, GoTime.addDays, GoTime.weekday,
      if_neg hclamp, htmod] <;>
    omega

/-- C9 witness: at day 3 of the epoch week (a Sunday, weekday 0) with
week-start Monday (1), the week start is day −2 (the preceding Monday). -/
theorem week_start_invariant_witness :
    ((0 : ℤ) ≤ 1 ∧ (1 : ℤ) ≤ 6) ∧
    ((startOfWeek ⟨3, 3600⟩ 1).secs = 0 ∧
      (startOfWeek ⟨3, 3600⟩ 1).weekday = 1 ∧
      (startOfWeek ⟨3, 3600⟩ 1).day ≤ (3 : ℤ) ∧
      (3 : ℤ) - (startOfWeek ⟨3, 3600⟩ 1).day ≤ 6) :=
  ⟨⟨by norm_num, by norm_num⟩, week_start_invariant ⟨3, 3600⟩ (by norm_num) (by norm_num)⟩

/-- C10: a week-start weekday outside Sunday..Saturday is silently replaced by
Monday, both by the constructor's clamp and inside `startOfWeek`, so the week
start is computed relative to Monday. -/
theorem invalid_week_start_defaults_to_monday {weekStartDay : ℤ}
    (h : weekStartDay < 0 ∨ 6 < weekStartDay) :
    collectorWeekStartDay weekStartDay = 1 ∧
    ∀ now : GoTime, startOfWeek now weekStartDay = startOfWeek now 1 := by
  constructor
  · simp only [collectorWeekStartDay, if_pos h]
  · intro now
    have h1 : ¬ ((1 : ℤ) < 0 ∨ (6 : ℤ) < 1) := by omega
    simp only [startOfWeek, if_pos h, if_neg h1]

/-- C10 witness: weekday 9 is out of range and is treated as Monday. -/
theorem invalid_week_start_defaults_to_monday_witness :
    ((9 : ℤ) < 0 ∨ (6 : ℤ) < 9) ∧
    (collectorWeekStartDay 9 = 1 ∧
      ∀ now : GoTime, startOfWeek now 9 = startOfWeek now 1) :=
  ⟨Or.inr (by norm_num), invalid_week_start_defaults_to_monday (Or.inr (by norm_num))⟩

/-! ## Terminal scraper parsers (internal/tmux/scraper.go)

The two weekly-percent parsers are pure functions of the captured pane text.
They are modelled on ANSI-free input (`StripANSI` is the identity there), and
the Go regular expressions are transcribed as explicit scanners with RE2's
leftmost-match semantics:

* `(?is)current\s+week\s*\(all\s+models\).*?(\d{1,3})%` and the fallback
  `(?is)current\s+week.*?(\d{1,3})%` for Claude;
* `(?i)weekly\s+limit[^\n]*?(\d{1,3})%\s*(left|used)?` for Codex.

`(?i)` is modelled by ASCII-lowercasing the input; `\s` is RE2's
`[\t\n\f\r ]`; `(\d{1,3})` greedy followed by `%` matches at a position
exactly when the digit run there has length 1–3 and is followed by `%`
(tried with 3, then 2, then 1 digits). -/

/-- ASCII lowercasing, the effect of `(?i)` on the pattern's literals. -/
def lowerCh (c : Char) : Char :=
  if 65 ≤ c.toNat ∧ c.toNat ≤ 90 then Char.ofNat (c.toNat + 32) else c

/-- RE2 `\s`: `[\t\n\f\r ]`. -/
def isWsCh (c : Char) : Bool :=
  c = ' ' || c = '\t' || c = '\n' || c = '\x0c' || c = '\r'

/-- RE2 `\d`: an ASCII digit. -/
def isDigitCh (c : Char) : Bool :=
  48 ≤ c.toNat && c.toNat ≤ 57

/-- Match a literal character sequence at the head of the input. -/
def matchChars : List Char → List Char → Option (List Char)
  | [], s => some s
  | _, [] => none
  | p :: ps, c :: cs => if c = p then matchChars ps cs else none

/-- Consume a maximal run of whitespace (`\s*`; exact here because every
following pattern token rejects whitespace). -/
def skipWsStar : List Char → List Char
  | [] => []
  | c :: cs => if isWsCh c then skipWsStar cs else c :: cs

/-- `\s+` followed by a non-whitespace token: at least one whitespace char,
then the maximal run. -/
def matchWsPlus : List Char → Option (List Char)
  | [] => none
  | c :: cs => if isWsCh c then some (skipWsStar cs) else none

/-- Try to match exactly `k` digits followed by `%` at the head; on success
return the captured digits and the input after the `%`. -/
def digitsThenPct (s : List Char) (k : Nat) : Option (List Char × List Char) :=
  let pre := s.take k
  if pre.length = k ∧ pre.all isDigitCh then
    match s.drop k with
    | '%' :: rest => some (pre, rest)
    | _ => none
  else none

/-- Greedy `(\d{1,3})%` at the head: try 3, then 2, then 1 digits. -/
def grabPctAt (s : List Char) : Option (List Char × List Char) :=
  match digitsThenPct s 3 with
  | some r => some r
  | none =>
    match digitsThenPct s 2 with
    | some r => some r
    | none => digitsThenPct s 1

/-- `(?s).*?(\d{1,3})%`: the first position (crossing newlines) where the
percent pattern matches. -/
def findPct : List Char → Option (List Char)
  | [] => none
  | c :: cs =>
    match grabPctAt (c :: cs) with
    | some (ds, _) => some ds
    | none => findPct cs

/-- `[^\n]*?(\d{1,3})%`: the first match without crossing a newline; returns
the captured digits and the input after the `%`. -/
def findPctInLine : List Char → Option (List Char × List Char)
  | [] => none
  | c :: cs =>
    match grabPctAt (c :: cs) with
    | some r => some r
    | none => if c = '\n' then none else findPctInLine cs

/-- `current\s+week\s*\(all\s+models\)` at the head (input already lowered). -/
def matchClaudeHeader (s : List Char) : Option (List Char) :=
  (matchChars "current".data s).bind fun s =>
    (matchWsPlus s).bind fun s =>
      (matchChars "week".data s).bind fun s =>
        (matchChars "(all".data (skipWsStar s)).bind fun s =>
          (matchWsPlus s).bind fun s =>
            matchChars "models)".data s

/-- `current\s+week` at the head (the fallback pattern's prefix). -/
def matchClaudeFallbackHeader (s : List Char) : Option (List Char) :=
  (matchChars "current".data s).bind fun s =>
    (matchWsPlus s).bind fun s =>
      matchChars "week".data s

/-- Leftmost match of `header.*?(\d{1,3})%`: at each start position try the
header and then the percent pattern anywhere in the rest. -/
def scanHeaderPct (header : List Char → Option (List Char)) :
    List Char → Option (List Char)
  | [] => none
  | c :: cs =>
    match header (c :: cs) with
    | some rest =>
      match findPct rest with
      | some ds => some ds
      | none => scanHeaderPct header cs
    | none => scanHeaderPct header cs

/-- `parsePct` from scraper.go: `strconv.Atoi` on the captured digits, then
reject values outside `[0,100]`.  (The capture is always 1–3 ASCII digits, so
`TrimSpace` and `Atoi`'s sign handling never engage.) -/
def atoiDigits (ds : List Char) : ℤ :=
  ds.foldl (fun n c => 10 * n + ((c.toNat : ℤ) - 48)) 0

def parsePct (ds : List Char) : Except String ℚ :=
  if ds ≠ [] ∧ ds.all isDigitCh then
    let pct := atoiDigits ds
    if pct < 0 ∨ 100 < pct then Except.error "percent out of range"
    else Except.ok (pct : ℚ)
  else Except.error "parse percent"

/-- `parseClaudeWeeklyPct` from scraper.go: the primary pattern, then the
fallback `current\s+week.*?(\d{1,3})%`, else an error. -/
def parseClaudeWeeklyPct (output : String) : Except String ℚ :=
  let cs := output.data.map lowerCh
  match scanHeaderPct matchClaudeHeader cs with
  | some ds => parsePct ds
  | none =>
    match scanHeaderPct matchClaudeFallbackHeader cs with
    | some ds => parsePct ds
    | none => Except.error "claude weekly usage percent not found"

/-- `weekly\s+limit` at the head (input already lowered). -/
def matchCodexHeader (s : List Char) : Option (List Char) :=
  (matchChars "weekly".data s).bind fun s =>
    (matchWsPlus s).bind fun s =>
      matchChars "limit".data s

/-- `\s*(left|used)?` after the `%`: skip whitespace, then the optional
qualifier (alternation tries `left` first). -/
def codexQualifier (rest : List Char) : Option (List Char) :=
  let r := skipWsStar rest
  match matchChars "left".data r with
  | some _ => some "left".data
  | none =>
    match matchChars "used".data r with
    | some _ => some "used".data
    | none => none

/-- Leftmost match of `weekly\s+limit[^\n]*?(\d{1,3})%\s*(left|used)?`. -/
def codexScan : List Char → Option (List Char × Option (List Char))
  | [] => none
  | c :: cs =>
    match matchCodexHeader (c :: cs) with
    | some rest =>
      match findPctInLine rest with
      | some (ds, after) => some (ds, codexQualifier after)
      | none => codexScan cs
    | none => codexScan cs

/-- `parseCodexWeeklyPct` from scraper.go (on the character list): find the
weekly-limit percent and qualifier; `left` converts to used via `100 - x`. -/
def parseCodexWeeklyPctChars (cs : List Char) : Except String ℚ :=
  match codexScan (cs.map lowerCh) with
  | some (ds, qual) =>
    match parsePct ds with
    | Except.ok pct =>
      Except.ok (if qual = some "left".data then 100 - pct else pct)
    | Except.error e => Except.error e
  | none => Except.error "codex weekly usage percent not found"

/-- `parseCodexWeeklyPct` from scraper.go. -/
def parseCodexWeeklyPct (output : String) : Except String ℚ :=
  parseCodexWeeklyPctChars output.data

/-- C7 (code bug): the Claude weekly parser matches only an integer run of
digits before `%` (`(\d{1,3})%` with `strconv.Atoi`), so a decimal percentage
like `45.5%` after "Current week (all models)" is parsed as `5` — the digits
after the decimal point — not `45.5` as the specification (and the
repository's own test for the 72.5 fixture) require.  Integer percentages in
the multi-line window do parse as claimed. -/
theorem claude_decimal_percent_misparsed :
    parseClaudeWeeklyPct "Current week (all models)\n 45.5% used" = Except.ok 5 ∧
    ((Except.ok 5 : Except String ℚ) ≠ Except.ok (45.5 : ℚ)) ∧
    parseClaudeWeeklyPct "Current week (all models)\n 45% used" = Except.ok 45 := by
  refine ⟨rfl, ?_, rfl⟩
  intro h
  have : (5 : ℚ) = 45.5 := Except.ok.inj h
  norm_num at this

/-! Symbolic execution lemmas for the Codex parser. -/

theorem lowerCh_of_digit {c : Char} (h : isDigitCh c = true) : lowerCh c = c := by
  simp only [isDigitCh, Bool.and_eq_true, decide_eq_true_eq] at h
  simp only [lowerCh]
  rw [if_neg]
  omega

theorem map_lowerCh_digits {ds : List Char} (h : ds.all isDigitCh = true) :
    ds.map lowerCh = ds := by
  induction ds with
  | nil => rfl
  | cons c cs ih =>
    simp only [List.all_cons, Bool.and_eq_true] at h
    simp only [List.map_cons, lowerCh_of_digit h.1, ih h.2]

theorem matchChars_self_append (p t : List Char) : matchChars p (p ++ t) = some t := by
  induction p with
  | nil => simp [matchChars]
  | cons c cs ih => simpa [matchChars] using ih

theorem digitsThenPct_head_not_digit {c : Char} (s : List Char) {k : Nat}
    (hc : isDigitCh c = false) (hk : 1 ≤ k) : digitsThenPct (c :: s) k = none := by
  obtain ⟨k', rfl⟩ : ∃ k', k = k' + 1 := ⟨k - 1, by omega⟩
  simp [digitsThenPct, hc]

theorem grabPctAt_head_not_digit {c : Char} (s : List Char)
    (hc : isDigitCh c = false) : grabPctAt (c :: s) = none := by
  simp only [grabPctAt,
    digitsThenPct_head_not_digit s hc (by omega : 1 ≤ 3),
    digitsThenPct_head_not_digit s hc (by omega : 1 ≤ 2),
    digitsThenPct_head_not_digit s hc (by omega : 1 ≤ 1)]

theorem pctCh_not_digit : isDigitCh '%' = false := by decide

theorem grabPctAt_digits (ds r : List Char) (hne : ds ≠ [])
    (hlen : ds.length ≤ 3) (hdig : ds.all isDigitCh = true) :
    grabPctAt (ds ++ '%' :: r) = some (ds, r) := by
  match ds, hne with
  | [a], _ =>
    simp only [List.all_cons, List.all_nil, Bool.and_true] at hdig
    simp [grabPctAt, digitsThenPct, hdig, pctCh_not_digit]
  | [a, b], _ =>
    simp only [List.all_cons, List.all_nil, Bool.and_true, Bool.and_eq_true] at hdig
    simp [grabPctAt, digitsThenPct, hdig.1, hdig.2, pctCh_not_digit]
  | [a, b, c], _ =>
    simp only [List.all_cons, List.all_nil, Bool.and_true, Bool.and_eq_true] at hdig
    simp [grabPctAt, digitsThenPct, hdig.1, hdig.2.1, hdig.2.2, pctCh_not_digit]
  | a :: b :: c :: d :: tl, _ => simp at hlen

theorem findPctInLine_digits {ds : List Char} (r : List Char) (hne : ds ≠ [])
    (hlen : ds.length ≤ 3) (hdig : ds.all isDigitCh = true) :
    findPctInLine (ds ++ '%' :: r) = some (ds, r) := by
  obtain ⟨a, tl, rfl⟩ : ∃ a tl, ds = a :: tl := by
    cases ds with
    | nil => exact absurd rfl hne
    | cons a tl => exact ⟨a, tl, rfl⟩
  have hgrab := grabPctAt_digits (a :: tl) r hne hlen hdig
  simp only [List.cons_append] at hgrab
  simp [findPctInLine, hgrab]

theorem isDigitCh_colon : isDigitCh ':' = false := by decide

theorem isDigitCh_space : isDigitCh ' ' = false := by decide

/-- The Codex scan on a status line of the canonical shape
`weekly limit: <digits>%<tail>` (already lowercased): the header matches at
the first position, so the scan returns the digit capture and the qualifier
parsed from the tail. -/
theorem codexScan_canonical {ds : List Char} (q : List Char) (hne : ds ≠ [])
    (hlen : ds.length ≤ 3) (hdig : ds.all isDigitCh = true) :
    codexScan ("weekly limit: ".data ++ (ds ++ '%' :: q))
      = some (ds, codexQualifier q) := by
  have hfind : findPctInLine (':' :: ' ' :: (ds ++ '%' :: q)) = some (ds, q) := by
    simp only [findPctInLine, grabPctAt_head_not_digit _ isDigitCh_colon,
      grabPctAt_head_not_digit _ isDigitCh_space]
    rw [if_neg (by decide : ¬ (':' = '\n')), if_neg (by decide : ¬ (' ' = '\n'))]
    exact findPctInLine_digits q hne hlen hdig
  simp [codexScan, matchCodexHeader, matchChars, matchWsPlus, skipWsStar,
    isWsCh, hfind]

theorem atoiDigits_nonneg {ds : List Char} (hdig : ds.all isDigitCh = true) :
    0 ≤ atoiDigits ds := by
  suffices h : ∀ (l : List Char) (n : ℤ), l.all isDigitCh = true → 0 ≤ n →
      0 ≤ l.foldl (fun n c => 10 * n + ((c.toNat : ℤ) - 48)) n by
    exact h ds 0 hdig le_rfl
  intro l
  induction l with
  | nil => intro n _ hn; exact hn
  | cons c cs ih =>
    intro n hall hn
    simp only [List.all_cons, Bool.and_eq_true] at hall
    have hc : 48 ≤ c.toNat := by
      have := hall.1
      simp only [isDigitCh, Bool.and_eq_true, decide_eq_true_eq] at this
      exact this.1
    have hc' : (48 : ℤ) ≤ (c.toNat : ℤ) := by exact_mod_cast hc
    apply ih _ hall.2
    show 0 ≤ 10 * n + ((c.toNat : ℤ) - 48)
    omega

/-- C8: for any status line of the form `Weekly limit: <N>%<qualifier>` with
`N` written as 1–3 ASCII digits, the Codex parser returns `100 − N` when the
qualifier is ` left`, returns `N` when the qualifier is ` used` or absent, and
rejects `N > 100` (with any tail) with the range error; the parsed value is
never negative. -/
theorem codex_weekly_pct_spec (ds : List Char) (hne : ds ≠ [])
    (hlen : ds.length ≤ 3) (hdig : ds.all isDigitCh = true) :
    0 ≤ atoiDigits ds ∧
    (atoiDigits ds ≤ 100 →
      parseCodexWeeklyPctChars ("Weekly limit: ".data ++ (ds ++ '%' :: " left".data))
          = Except.ok (100 - (atoiDigits ds : ℚ)) ∧
      parseCodexWeeklyPctChars ("Weekly limit: ".data ++ (ds ++ '%' :: " used".data))
          = Except.ok ((atoiDigits ds : ℚ)) ∧
      parseCodexWeeklyPctChars ("Weekly limit: ".data ++ (ds ++ '%' :: []))
          = Except.ok ((atoiDigits ds : ℚ))) ∧
    (100 < atoiDigits ds →
      ∀ q : List Char,
        parseCodexWeeklyPctChars ("Weekly limit: ".data ++ (ds ++ '%' :: q))
          = Except.error "percent out of range") := by
  have h0 := atoiDigits_nonneg hdig
  have hmapW : ("Weekly limit: ".data).map lowerCh = "weekly limit: ".data := rfl
  have hpctlow : lowerCh '%' = '%' := rfl
  have hmap : ∀ q : List Char,
      (("Weekly limit: ".data ++ (ds ++ '%' :: q)).map lowerCh)
        = "weekly limit: ".data ++ (ds ++ '%' :: q.map lowerCh) := by
    intro q
    simp [List.map_append, map_lowerCh_digits hdig, hmapW, hpctlow]
    all_goals decide
  have hscan : ∀ q : List Char,
      codexScan (("Weekly limit: ".data ++ (ds ++ '%' :: q)).map lowerCh)
        = some (ds, codexQualifier (q.map lowerCh)) := by
    intro q
    rw [hmap q]
    exact codexScan_canonical (q.map lowerCh) hne hlen hdig
  refine ⟨h0, ?_, ?_⟩
  · intro hle
    have hparse : parsePct ds = Except.ok ((atoiDigits ds : ℚ)) := by
      have hcond : ¬ (atoiDigits ds < 0 ∨ 100 < atoiDigits ds) := by omega
      simp only [parsePct]
      rw [if_pos (And.intro hne hdig), if_neg hcond]
    have hql : codexQualifier ((" left".data : List Char).map lowerCh)
        = some "left".data := rfl
    have hqu : codexQualifier ((" used".data : List Char).map lowerCh)
        = some "used".data := rfl
    have hqn : codexQualifier (([] : List Char).map lowerCh) = none := rfl
    refine ⟨?_, ?_, ?_⟩ <;>
      simp only [parseCodexWeeklyPctChars, hscan, hparse, hql, hqu, hqn] <;>
      simp
  · intro hgt q
    have hparse : parsePct ds = Except.error "percent out of range" := by
      have hcond : atoiDigits ds < 0 ∨ 100 < atoiDigits ds := Or.inr hgt
      simp only [parsePct]
      rw [if_pos (And.intro hne hdig), if_pos hcond]
    simp only [parseCodexWeeklyPctChars, hscan, hparse]

/-- C8 witness: `"Weekly limit: 77% left"` parses to 23% used and
`"Weekly limit: 150% used"` is rejected. -/
theorem codex_weekly_pct_spec_witness :
    ((['7', '7'] : List Char) ≠ [] ∧ (['7', '7'] : List Char).length ≤ 3 ∧
      (['7', '7'] : List Char).all isDigitCh = true ∧ atoiDigits ['7', '7'] ≤ 100 ∧
      100 < atoiDigits ['1', '5', '0']) ∧
    parseCodexWeeklyPct "Weekly limit: 77% left" = Except.ok 23 ∧
    parseCodexWeeklyPct "Weekly limit: 150% used" = Except.error "percent out of range" := by
  have h77 := (codex_weekly_pct_spec ['7', '7'] (by simp) (by simp) (by decide)).2.1
    (by decide)
  have h150 := (codex_weekly_pct_spec ['1', '5', '0'] (by simp) (by simp) (by decide)).2.2
    (by decide) " used".data
  refine ⟨⟨by simp, by simp, by decide, by decide, by decide⟩, ?_, ?_⟩
  · have heq : parseCodexWeeklyPct "Weekly limit: 77% left"
        = parseCodexWeeklyPctChars ("Weekly limit: ".data ++ (['7', '7'] ++ '%' :: " left".data)) := rfl
    have hval : atoiDigits ['7', '7'] = 77 := by decide
    rw [heq, h77.1, hval]
    norm_num
  · have heq : parseCodexWeeklyPct "Weekly limit: 150% used"
        = parseCodexWeeklyPctChars ("Weekly limit: ".data ++ (['1', '5', '0'] ++ '%' :: " used".data)) := rfl
    rw [heq, h150]


/-! ## Task registry and task selector (internal/tasks)

`register.go` (the transactional custom-task registration) is in the
repository and is embedded below as written.  The registry itself
(`RegisterCustom`, `UnregisterCustom`, the built-in definitions) and the
selector and its state (`selector.go`, `state.go`) are code of this
repository that is not under `src/` — only their tests and callers are —
so those parts are modelled from the specification (§3 "Task definition",
"Assignment", §4.6, §4.7) and from the behaviour their tests pin down.
Durations (`time.Duration`) are nanosecond counts, modelled as `ℤ`;
`time.ParseDuration` is Go standard library and is passed in as a
parameter. -/

inductive TaskCategory
  | pr | analysis | options | safe | map | emergency
  deriving Repr, DecidableEq

inductive CostTier
  | low | medium | high | veryHigh
  deriving Repr, DecidableEq

inductive RiskLevel
  | low | medium | high
  deriving Repr, DecidableEq

structure TaskDefinition where
  type : String
  category : TaskCategory
  name : String
  description : String
  costTier : CostTier
  riskLevel : RiskLevel
  defaultInterval : ℤ
  deriving Repr, DecidableEq

structure CustomTaskConfig where
  type : String
  name : String
  description : String
  category : String
  costTier : String
  riskLevel : String
  interval : String
  deriving Repr, DecidableEq

/-- `parseCategoryString` from register.go (defaults to analysis). -/
def parseCategoryString (s : String) : TaskCategory :=
  match s.trim.toLower with
  | "pr" => .pr
  | "analysis" => .analysis
  | "options" => .options
  | "safe" => .safe
  | "map" => .map
  | "emergency" => .emergency
  | _ => .analysis

/-- `parseCostTierString` from register.go (defaults to medium). -/
def parseCostTierString (s : String) : CostTier :=
  match s.trim.toLower with
  | "low" => .low
  | "medium" => .medium
  | "high" => .high
  | "very-high" => .veryHigh
  | _ => .medium

/-- `parseRiskLevelString` from register.go (defaults to low). -/
def parseRiskLevelString (s : String) : RiskLevel :=
  match s.trim.toLower with
  | "low" => .low
  | "medium" => .medium
  | "high" => .high
  | _ => .low

/-- Modelled from the spec: the registry's default cooldown per category
("default cooldown (duration)"); the spec gives no concrete values, so a
fixed 24h in nanoseconds is used for every category. -/
def DefaultIntervalForCategory (_ : TaskCategory) : ℤ := 86400000000000

/-- Modelled from the spec: the built-in task types (process-constant);
the registration tests show `lint-fix` is among them. -/
def builtinTypes : List String :=
  ["lint-fix", "bug-finder", "dead-code", "docs-backfill", "migration-rehearsal"]

/-- Modelled from the spec: the registry's mutable part, the custom
definitions keyed by type. -/
abbrev RegistryState := List (String × TaskDefinition)

/-- Modelled from the spec: `RegisterCustom` rejects a type that collides
with a built-in or an already-registered type (task types are globally
unique), otherwise records the definition. -/
def registerCustom (d : TaskDefinition) (st : RegistryState) : Option RegistryState :=
  if builtinTypes.contains d.type || (st.map Prod.fst).contains d.type then
    none
  else
    some ((d.type, d) :: st)

/-- Modelled from the spec: `UnregisterCustom` removes the type from the
registry. -/
def unregisterCustom (t : String) (st : RegistryState) : RegistryState :=
  st.filter (fun p => p.1 != t)

/-- `RegisterCustomTasksFromConfig` from register.go: convert each custom
config in order (parsing category, cost tier, risk level, and the interval —
the category default when the interval string is empty); on the first failure
(unparseable duration or registry rejection) unregister every type registered
earlier in this call and report the error. -/
def registerLoop (parseDuration : String → Option ℤ) :
    List CustomTaskConfig → List String → RegistryState → RegistryState × Option String
  | [], _, st => (st, none)
  | c :: rest, registered, st =>
    let cat := parseCategoryString c.category
    let cost := parseCostTierString c.costTier
    let risk := parseRiskLevelString c.riskLevel
    match (if c.interval = "" then some (DefaultIntervalForCategory cat)
           else parseDuration c.interval) with
    | none =>
      (registered.foldl (fun s t => unregisterCustom t s) st,
        some ("custom task " ++ c.type ++ ": invalid interval " ++ c.interval))
    | some interval =>
      let d : TaskDefinition :=
        { type := c.type, category := cat, name := c.name,
          description := c.description, costTier := cost, riskLevel := risk,
          defaultInterval := interval }
      match registerCustom d st with
      | none =>
        (registered.foldl (fun s t => unregisterCustom t s) st,
          some ("custom task " ++ c.type ++ ": type collision"))
      | some st2 => registerLoop parseDuration rest (registered ++ [c.type]) st2

def registerCustomTasksFromConfig (parseDuration : String → Option ℤ)
    (customs : List CustomTaskConfig) (st : RegistryState) :
    RegistryState × Option String :=
  registerLoop parseDuration customs [] st

/-! ## Selector state and selection pipeline (modelled from the spec) -/

/-- Modelled from the spec: the persistent state consulted by the selector —
active assignment keys and the last-run instant of each (project, type). -/
structure SelState where
  assigned : List String
  lastRun : List ((String × String) × ℤ)
  deriving Repr, DecidableEq

/-- `makeTaskID` (pinned by `TestMakeTaskID`): `"<task-type>:<project>"`. -/
def makeTaskID (taskType project : String) : String :=
  taskType ++ ":" ++ project

def SelState.isAssigned (st : SelState) (id : String) : Bool :=
  decide (id ∈ st.assigned)

def SelState.markAssigned (st : SelState) (id : String) : SelState :=
  { st with assigned := id :: st.assigned }

def SelState.clearAssigned (st : SelState) (id : String) : SelState :=
  { st with assigned := st.assigned.filter (fun x => x != id) }

def SelState.lastRunOf (st : SelState) (project taskType : String) : Option ℤ :=
  (st.lastRun.find? (fun p => p.1.1 == project && p.1.2 == taskType)).map Prod.snd

/-- Modelled from the spec: selector-level configuration (enable/disable
lists, per-type priorities and interval overrides). -/
structure TasksConfig where
  enabled : List String
  disabled : List String
  priorities : List (String × ℤ)
  intervals : List (String × ℤ)
  deriving Repr, DecidableEq

structure Selector where
  cfg : TasksConfig
  contextMentions : List String
  taskSources : List String
  deriving Repr, DecidableEq

/-- Modelled from the spec: cost-tier lower bounds
(low 10k, medium 50k, high 150k, very-high 500k). -/
def costLowerBound : CostTier → ℤ
  | .low => 10000
  | .medium => 50000
  | .high => 150000
  | .veryHigh => 500000

/-- Filtering step 1 (spec §4.7): explicit enable list if configured, then
remove disabled types. -/
def filterEnabled (sel : Selector) (tasks : List TaskDefinition) : List TaskDefinition :=
  let kept := if sel.cfg.enabled.isEmpty then tasks
    else tasks.filter (fun d => sel.cfg.enabled.contains d.type)
  kept.filter (fun d => !(sel.cfg.disabled.contains d.type))

/-- Filtering step 2: the cost-tier lower bound must fit the budget. -/
def filterByBudget (tasks : List TaskDefinition) (budget : ℤ) : List TaskDefinition :=
  tasks.filter (fun d => decide (costLowerBound d.costTier ≤ budget))

/-- Filtering step 3: drop types with an active assignment for this project. -/
def filterUnassigned (st : SelState) (tasks : List TaskDefinition)
    (project : String) : List TaskDefinition :=
  tasks.filter (fun d => !(st.isAssigned (makeTaskID d.type project)))

/-- The per-type cooldown interval: configured override or definition default. -/
def intervalFor (sel : Selector) (d : TaskDefinition) : ℤ :=
  match (sel.cfg.intervals.find? (fun p => p.1 == d.type)).map Prod.snd with
  | some i => i
  | none => d.defaultInterval

/-- Filtering step 4: drop types whose interval has not elapsed since the
last recorded run for (project, type). -/
def filterCooldown (sel : Selector) (st : SelState) (now : ℤ)
    (tasks : List TaskDefinition) (project : String) : List TaskDefinition :=
  tasks.filter (fun d =>
    match st.lastRunOf project d.type with
    | none => true
    | some t => decide (intervalFor sel d ≤ now - t))

/-- Modelled from the spec: the staleness bonus, 3.0 when never run, 0 when
run today, discrete tiers by whole-day delta in between (the intermediate
tier values are not pinned by the spec). -/
def stalenessBonus (lastRun : Option ℤ) (today : ℤ) : ℚ :=
  match lastRun with
  | none => 3
  | some d =>
    if today - d ≤ 0 then 0
    else if today - d = 1 then 1
    else if today - d = 2 then 2
    else 3

def priorityOf (sel : Selector) (d : TaskDefinition) : ℤ :=
  match (sel.cfg.priorities.find? (fun p => p.1 == d.type)).map Prod.snd with
  | some p => p
  | none => 0

/-- Scoring (spec §4.7): priority + staleness + context bonus 2.0 + source
bonus 3.0. -/
def scoreTask (sel : Selector) (st : SelState) (today : ℤ) (project : String)
    (d : TaskDefinition) : ℚ :=
  (priorityOf sel d : ℚ) + stalenessBonus (st.lastRunOf project d.type) today
    + (if sel.contextMentions.contains d.type then 2 else 0)
    + (if sel.taskSources.contains d.type then 3 else 0)

/-- Stable insertion keeping descending score order (ties keep the incoming —
registry — order). -/
def insertByScore (score : TaskDefinition → ℚ) (d : TaskDefinition) :
    List TaskDefinition → List TaskDefinition
  | [] => [d]
  | x :: xs => if score x < score d then d :: x :: xs else x :: insertByScore score d xs

def sortByScoreDesc (score : TaskDefinition → ℚ) :
    List TaskDefinition → List TaskDefinition
  | [] => []
  | x :: xs => insertByScore score x (sortByScoreDesc score xs)

/-- The selection pipeline (spec §4.7): enabled → budget → unassigned →
cooldown, then sort by score descending. -/
def selectCandidates (sel : Selector) (st : SelState) (now : ℤ)
    (defs : List TaskDefinition) (budget : ℤ) (project : String) :
    List TaskDefinition :=
  sortByScoreDesc (scoreTask sel st now project)
    (filterCooldown sel st now
      (filterUnassigned st (filterByBudget (filterEnabled sel defs) budget) project)
      project)

def selectTopN (sel : Selector) (st : SelState) (now : ℤ)
    (defs : List TaskDefinition) (budget : ℤ) (project : String) (n : Nat) :
    List TaskDefinition :=
  (selectCandidates sel st now defs budget project).take n

def selectNext (sel : Selector) (st : SelState) (now : ℤ)
    (defs : List TaskDefinition) (budget : ℤ) (project : String) :
    Option TaskDefinition :=
  (selectCandidates sel st now defs budget project).head?

/-- `SelectAndAssign`: the top candidate, with its assignment created
immediately in the state. -/
def selectAndAssign (sel : Selector) (st : SelState) (now : ℤ)
    (defs : List TaskDefinition) (budget : ℤ) (project : String) :
    Option TaskDefinition × SelState :=
  match selectNext sel st now defs budget project with
  | none => (none, st)
  | some d => (some d, st.markAssigned (makeTaskID d.type project))


/-! Membership lemmas for the selection pipeline. -/

theorem mem_insertByScore {score : TaskDefinition → ℚ} {d y : TaskDefinition}
    {l : List TaskDefinition} (h : y ∈ insertByScore score d l) : y = d ∨ y ∈ l := by
  induction l with
  | nil => simpa [insertByScore] using h
  | cons x xs ih =>
    simp only [insertByScore] at h
    split at h
    · simpa using h
    · rcases List.mem_cons.mp h with h1 | h2
      · exact Or.inr (by simp [h1])
      · rcases ih h2 with h3 | h4
        · exact Or.inl h3
        · exact Or.inr (List.mem_cons_of_mem _ h4)

theorem mem_sortByScoreDesc {score : TaskDefinition → ℚ} {y : TaskDefinition}
    {l : List TaskDefinition} (h : y ∈ sortByScoreDesc score l) : y ∈ l := by
  induction l with
  | nil => simpa [sortByScoreDesc] using h
  | cons x xs ih =>
    simp only [sortByScoreDesc] at h
    rcases mem_insertByScore h with h1 | h2
    · simp [h1]
    · exact List.mem_cons_of_mem _ (ih h2)

theorem mem_selectCandidates_not_assigned {sel : Selector} {st : SelState} {now : ℤ}
    {defs : List TaskDefinition} {budget : ℤ} {project : String} {d : TaskDefinition}
    (h : d ∈ selectCandidates sel st now defs budget project) :
    st.isAssigned (makeTaskID d.type project) = false := by
  have h1 := mem_sortByScoreDesc h
  have h2 := (List.mem_filter.mp h1).1
  have h3 := (List.mem_filter.mp h2).2
  simpa using h3

/-- C5: for any (type, project) pair with an active assignment, the selector
results (`selectTopN`, `selectNext`, `selectAndAssign`) never include that
type for that project; and once `selectAndAssign` returns a task, its
assignment key is held in the state, a second `selectAndAssign` on the same
project can never return the same key, and the key survives any other
caller's `selectAndAssign` (on any project) and any `clearAssigned` of a
different key, until its own `clearAssigned`. -/
theorem selector_never_returns_assigned (sel : Selector) (st : SelState) (now : ℤ)
    (defs : List TaskDefinition) (budget : ℤ) (project : String) :
    (∀ d : TaskDefinition, st.isAssigned (makeTaskID d.type project) = true →
      (∀ n : Nat, d ∉ selectTopN sel st now defs budget project n) ∧
      selectNext sel st now defs budget project ≠ some d ∧
      (selectAndAssign sel st now defs budget project).1 ≠ some d) ∧
    (∀ (d : TaskDefinition) (st2 : SelState),
      selectAndAssign sel st now defs budget project = (some d, st2) →
      st2.isAssigned (makeTaskID d.type project) = true ∧
      (∀ (sel2 : Selector) (now2 : ℤ) (defs2 : List TaskDefinition) (budget2 : ℤ)
          (d2 : TaskDefinition) (st3 : SelState),
        selectAndAssign sel2 st2 now2 defs2 budget2 project = (some d2, st3) →
          makeTaskID d2.type project ≠ makeTaskID d.type project) ∧
      (∀ (sel2 : Selector) (now2 : ℤ) (defs2 : List TaskDefinition) (budget2 : ℤ)
          (q : String),
        ((selectAndAssign sel2 st2 now2 defs2 budget2 q).2).isAssigned
          (makeTaskID d.type project) = true) ∧
      (∀ id : String, id ≠ makeTaskID d.type project →
        (st2.clearAssigned id).isAssigned (makeTaskID d.type project) = true)) := by
  have hnever : ∀ (sel' : Selector) (s : SelState) (now' : ℤ)
      (defs' : List TaskDefinition) (budget' : ℤ) (d : TaskDefinition),
      s.isAssigned (makeTaskID d.type project) = true →
      selectNext sel' s now' defs' budget' project ≠ some d := by
    intro sel' s now' defs' budget' d hass hnext
    simp only [selectNext] at hnext
    have hmem : d ∈ selectCandidates sel' s now' defs' budget' project :=
      List.mem_of_mem_head? (by simp [hnext])
    have := mem_selectCandidates_not_assigned hmem
    rw [hass] at this
    exact absurd this (by decide)
  have hmemAssigned : ∀ (s : SelState) (id : String), s.isAssigned id = true →
      id ∈ s.assigned := by
    intro s id h
    simpa [SelState.isAssigned] using h
  constructor
  · intro d hass
    refine ⟨?_, hnever sel st now defs budget d hass, ?_⟩
    · intro n htop
      have hmem : d ∈ selectCandidates sel st now defs budget project :=
        List.take_subset n _ htop
      have := mem_selectCandidates_not_assigned hmem
      rw [hass] at this
      exact absurd this (by decide)
    · intro h1
      cases hsel : selectNext sel st now defs budget project with
      | none => simp [selectAndAssign, hsel] at h1
      | some d' =>
        simp only [selectAndAssign, hsel] at h1
        have : d' = d := by simpa using h1
        subst this
        exact hnever sel st now defs budget d' hass hsel
  · intro d st2 heq
    cases hsel : selectNext sel st now defs budget project with
    | none => simp [selectAndAssign, hsel] at heq
    | some d' =>
      simp only [selectAndAssign, hsel, Prod.mk.injEq, Option.some.injEq] at heq
      obtain ⟨rfl, rfl⟩ := heq
      have hheld : (st.markAssigned (makeTaskID d'.type project)).isAssigned
          (makeTaskID d'.type project) = true := by
        simp [SelState.markAssigned, SelState.isAssigned]
      refine ⟨hheld, ?_, ?_, ?_⟩
      · intro sel2 now2 defs2 budget2 d2 st3 heq2 hkeyeq
        cases hsel2 : selectNext sel2 (st.markAssigned (makeTaskID d'.type project))
            now2 defs2 budget2 project with
        | none => simp [selectAndAssign, hsel2] at heq2
        | some d2' =>
          simp only [selectAndAssign, hsel2, Prod.mk.injEq, Option.some.injEq] at heq2
          obtain ⟨rfl, rfl⟩ := heq2
          have hass2 : (st.markAssigned (makeTaskID d'.type project)).isAssigned
              (makeTaskID d2'.type project) = true := by
            rw [hkeyeq]; exact hheld
          exact hnever sel2 _ now2 defs2 budget2 d2' hass2 hsel2
      · intro sel2 now2 defs2 budget2 q
        cases hsel2 : selectNext sel2 (st.markAssigned (makeTaskID d'.type project))
            now2 defs2 budget2 q with
        | none => simpa [selectAndAssign, hsel2] using hheld
        | some d2 =>
          simp only [selectAndAssign, hsel2]
          have hmem := hmemAssigned _ _ hheld
          simp only [SelState.markAssigned, SelState.isAssigned, decide_eq_true_eq]
          exact List.mem_cons_of_mem _ hmem
      · intro id hne
        have hmem := hmemAssigned _ _ hheld
        simp only [SelState.clearAssigned, SelState.isAssigned, decide_eq_true_eq]
        refine List.mem_filter.mpr ⟨hmem, ?_⟩
        exact bne_iff_ne.mpr (Ne.symm hne)

/-- C5 witness: with `lint-fix:/p` assigned, the selector never surfaces a
`lint-fix` definition for project `/p`, and a successful `selectAndAssign`
holds its key in the returned state. -/
theorem selector_never_returns_assigned_witness :
    ((SelState.mk ["lint-fix:/p"] []).isAssigned
        (makeTaskID (TaskDefinition.mk "lint-fix" .safe "Lint Fix" "fix lint"
          .low .low 86400000000000).type "/p") = true) ∧
    ((TaskDefinition.mk "lint-fix" .safe "Lint Fix" "fix lint" .low .low
        86400000000000) ∉
      selectTopN (Selector.mk (TasksConfig.mk [] [] [] []) [] [])
        (SelState.mk ["lint-fix:/p"] []) 0
        [TaskDefinition.mk "lint-fix" .safe "Lint Fix" "fix lint" .low .low
          86400000000000] 100000 "/p" 5) ∧
    selectNext (Selector.mk (TasksConfig.mk [] [] [] []) [] [])
        (SelState.mk ["lint-fix:/p"] []) 0
        [TaskDefinition.mk "lint-fix" .safe "Lint Fix" "fix lint" .low .low
          86400000000000] 100000 "/p"
      ≠ some (TaskDefinition.mk "lint-fix" .safe "Lint Fix" "fix lint" .low .low
          86400000000000) := by
  have h := (selector_never_returns_assigned
      (Selector.mk (TasksConfig.mk [] [] [] []) [] [])
      (SelState.mk ["lint-fix:/p"] []) 0
      [TaskDefinition.mk "lint-fix" .safe "Lint Fix" "fix lint" .low .low
        86400000000000] 100000 "/p").1
      (TaskDefinition.mk "lint-fix" .safe "Lint Fix" "fix lint" .low .low
        86400000000000) (by decide)
  exact ⟨by decide, h.1 5, h.2.1⟩


/-! Rollback lemmas for transactional custom-task registration. -/

theorem map_fst_filter_bne (l : List (String × TaskDefinition)) (t : String) :
    (l.filter (fun p => p.1 != t)).map Prod.fst
      = (l.map Prod.fst).filter (fun x => x != t) := by
  induction l with
  | nil => rfl
  | cons a tl ih =>
    by_cases h : (a.1 != t) = true <;> simp [h, ih]

theorem rollback_restores :
    ∀ (registered : List String) (pre st0 : RegistryState),
      pre.map Prod.fst = registered.reverse →
      registered.Nodup →
      (∀ t ∈ registered, ∀ p ∈ st0, p.1 ≠ t) →
      registered.foldl (fun s t => unregisterCustom t s) (pre ++ st0) = st0 := by
  intro registered
  induction registered with
  | nil =>
    intro pre st0 hpre _ _
    have hpre2 : List.map Prod.fst pre = ([] : List String) := by simpa using hpre
    have hpre3 : pre = [] := List.map_eq_nil.mp hpre2
    simp [hpre3]
  | cons t rest ih =>
    intro pre st0 hpre hnd hfresh
    have hndr := List.nodup_cons.mp hnd
    have hst0 : st0.filter (fun p => p.1 != t) = st0 := by
      apply List.filter_eq_self.mpr
      intro p hp
      exact bne_iff_ne.mpr (hfresh t (List.mem_cons_self t rest) p hp)
    have hstep : unregisterCustom t (pre ++ st0)
        = pre.filter (fun p => p.1 != t) ++ st0 := by
      simp only [unregisterCustom, List.filter_append, hst0]
    have hpre2 : (pre.filter (fun p => p.1 != t)).map Prod.fst = rest.reverse := by
      rw [map_fst_filter_bne, hpre]
      simp only [List.reverse_cons, List.filter_append]
      have h1 : rest.reverse.filter (fun x => x != t) = rest.reverse := by
        apply List.filter_eq_self.mpr
        intro x hx
        exact bne_iff_ne.mpr (fun hxt => hndr.1 (hxt ▸ List.mem_reverse.mp hx))
      have h2 : ([t] : List String).filter (fun x => x != t) = [] := by
        simp [bne_self_eq_false]
      rw [h1, h2, List.append_nil]
    calc (t :: rest).foldl (fun s t => unregisterCustom t s) (pre ++ st0)
        = rest.foldl (fun s t => unregisterCustom t s)
            (pre.filter (fun p => p.1 != t) ++ st0) := by
          rw [List.foldl_cons, hstep]
      _ = st0 := ih _ st0 hpre2 hndr.2
            (fun x hx p hp => hfresh x (List.mem_cons_of_mem t hx) p hp)

theorem registerLoop_error_rollback :
    ∀ (customs : List CustomTaskConfig) (parseDuration : String → Option ℤ)
      (registered : List String) (pre st0 : RegistryState),
      pre.map Prod.fst = registered.reverse →
      registered.Nodup →
      (∀ t ∈ registered, ∀ p ∈ st0, p.1 ≠ t) →
      ∀ e, (registerLoop parseDuration customs registered (pre ++ st0)).2 = some e →
        (registerLoop parseDuration customs registered (pre ++ st0)).1 = st0 := by
  intro customs
  induction customs with
  | nil =>
    intro pd registered pre st0 _ _ _ e herr
    simp [registerLoop] at herr
  | cons c rest ih =>
    intro pd registered pre st0 hpre hnd hfresh e herr
    simp only [registerLoop] at herr ⊢
    cases hint : (if c.interval = "" then
        some (DefaultIntervalForCategory (parseCategoryString c.category))
      else pd c.interval) with
    | none =>
      simp only [hint] at herr ⊢
      exact rollback_restores registered pre st0 hpre hnd hfresh
    | some interval =>
      simp only [hint] at herr ⊢
      cases hreg : registerCustom
          (TaskDefinition.mk c.type (parseCategoryString c.category) c.name
            c.description (parseCostTierString c.costTier)
            (parseRiskLevelString c.riskLevel) interval) (pre ++ st0) with
      | none =>
        simp only [hreg] at herr ⊢
        exact rollback_restores registered pre st0 hpre hnd hfresh
      | some st2 =>
        simp only [hreg] at herr ⊢
        have hcond : (builtinTypes.contains c.type
            || ((pre ++ st0).map Prod.fst).contains c.type) = false ∧
            st2 = (c.type, TaskDefinition.mk c.type (parseCategoryString c.category)
              c.name c.description (parseCostTierString c.costTier)
              (parseRiskLevelString c.riskLevel) interval) :: (pre ++ st0) := by
          simp only [registerCustom] at hreg
          split at hreg
          · exact absurd hreg (by simp)
          · next hb =>
            have hb2 : (builtinTypes.contains c.type
                || ((pre ++ st0).map Prod.fst).contains c.type) = false :=
              Bool.eq_false_iff.mpr hb
            exact ⟨hb2, by simpa using hreg.symm⟩
        have hnotmem : c.type ∉ ((pre ++ st0).map Prod.fst) := by
          intro hmem
          have := Bool.or_eq_false_iff.mp hcond.1
          exact absurd (List.elem_iff.mpr hmem) (by simpa using this.2)
        have hnotreg : c.type ∉ registered := by
          intro hmem
          apply hnotmem
          rw [List.map_append, hpre]
          exact List.mem_append_left _ (List.mem_reverse.mpr hmem)
        have hnotst0 : ∀ p ∈ st0, p.1 ≠ c.type := by
          intro p hp hpt
          apply hnotmem
          rw [List.map_append]
          exact List.mem_append_right _ (hpt ▸ List.mem_map_of_mem Prod.fst hp)
        have hst2 : st2 = ((c.type, TaskDefinition.mk c.type
            (parseCategoryString c.category) c.name c.description
            (parseCostTierString c.costTier) (parseRiskLevelString c.riskLevel)
            interval) :: pre) ++ st0 := by
          rw [hcond.2]; rfl
        rw [hst2] at herr ⊢
        apply ih pd (registered ++ [c.type]) _ st0 ?_ ?_ ?_ e herr
        · simp [hpre]
        · simp [List.nodup_append, hnd, hnotreg]
        · intro t ht p hp
          rcases List.mem_append.mp ht with h1 | h2
          · exact hfresh t h1 p hp
          · have : t = c.type := by simpa using h2
            exact this ▸ hnotst0 p hp

/-- C6: registering custom task definitions from configuration is
all-or-nothing — whenever `RegisterCustomTasksFromConfig` reports an error
(a type colliding with the registry's contents or an unparseable interval),
every entry registered earlier in the same call has been unregistered and
the registry is exactly as before the call. -/
theorem register_custom_tasks_all_or_nothing (parseDuration : String → Option ℤ)
    (customs : List CustomTaskConfig) (st : RegistryState) (e : String)
    (herr : (registerCustomTasksFromConfig parseDuration customs st).2 = some e) :
    (registerCustomTasksFromConfig parseDuration customs st).1 = st := by
  have h := registerLoop_error_rollback customs parseDuration [] [] st
    (by simp) List.nodup_nil (by simp) e
  simp only [registerCustomTasksFromConfig, List.nil_append] at h ⊢
  exact h herr

/-- C6 witness: a valid custom task followed by one colliding with the
built-in `lint-fix` registers nothing: the error is reported and the registry
is back to its initial (empty) state. -/
theorem register_custom_tasks_all_or_nothing_witness :
    ((registerCustomTasksFromConfig (fun _ => none)
        [CustomTaskConfig.mk "good-task" "Good Task" "desc" "pr" "" "" "",
         CustomTaskConfig.mk "lint-fix" "Colliding Task" "desc" "" "" "" ""]
        []).2 = some "custom task lint-fix: type collision") ∧
    (registerCustomTasksFromConfig (fun _ => none)
        [CustomTaskConfig.mk "good-task" "Good Task" "desc" "pr" "" "" "",
         CustomTaskConfig.mk "lint-fix" "Colliding Task" "desc" "" "" "" ""]
        []).1 = [] := by
  refine ⟨by rfl, ?_⟩
  exact register_custom_tasks_all_or_nothing (fun _ => none) _ []
    "custom task lint-fix: type collision" (by rfl)

end Nightshift
